import Mathlib

/-! Verification development for the mibph lexer (src/lex.rs): a shallow
embedding of the nom parser combinators the lexer uses and of every grammar
rule reachable from `token` and `lex`, together with theorems checking the
lexical specification against that embedding.  Input text is a `List Char`
(a borrowed view of the UTF-8 source decoded to scalar values). -/

namespace Mibph

/-- Outcome of running one nom-style grammar rule on an input suffix.
`ok rest val` is nom's `Ok((rest, val))`; `fail` is nom's `Err` (returned as
a value); `abort` models a Rust panic (a `todo!` or `unreachable!` reached
inside a rule), which is not a nom error value.  nom's `Err::Failure` is not
modelled separately from `Err::Error`: the only places the lexer could
produce a `Failure` are the zero-consumption guards of `fold_many1`, and the
element parsers used there (`digit`) always consume input, so those guards
are unreachable; both error kinds are collapsed into `fail`. -/
inductive PResult (α : Type) where
  | ok (rest : List Char) (val : α)
  | fail
  | abort
deriving DecidableEq

/-- True exactly on the `fail` outcome. -/
def PResult.isFail {α : Type} : PResult α → Bool
  | .fail => true
  | _ => false

/-- A grammar rule: a total function from an input suffix to a result. -/
abbrev Parser (α : Type) := List Char → PResult α

variable {α β γ : Type}

/- The rational-number operations backing the `f64` model are evaluated
inside concrete theorems by kernel reduction, so they must not be
irreducible. -/
attribute [local semireducible] Rat.add Rat.mul Rat.inv Rat.sub

/-- nom `tag`: matches the literal character sequence `s`. -/
def tag (s : List Char) : Parser (List Char) := fun i =>
  if s.isPrefixOf i then .ok (i.drop s.length) s else .fail

/-- nom `satisfy`: one character passing the predicate. -/
def satisfy (f : Char → Bool) : Parser Char := fun i =>
  match i with
  | [] => .fail
  | c :: rest => if f c then .ok rest c else .fail

/-- nom `char`: one fixed character. -/
def char (c : Char) : Parser Char := satisfy (fun x => x == c)

/-- nom `one_of`: one character from the list. -/
def one_of (l : List Char) : Parser Char := satisfy (fun x => l.contains x)

/-- nom `none_of`: one character not in the list. -/
def none_of (l : List Char) : Parser Char := satisfy (fun x => !l.contains x)

/-- nom `anychar`: any single character. -/
def anychar : Parser Char := satisfy (fun _ => true)

/-- nom `map`: apply a pure function to the parsed value. -/
def pmap (p : Parser α) (f : α → β) : Parser β := fun i =>
  match p i with
  | .ok r a => .ok r (f a)
  | .fail => .fail
  | .abort => .abort

/-- nom `value`: discard the parsed value, return a constant. -/
def value (b : β) (p : Parser α) : Parser β := pmap p (fun _ => b)

/-- nom `map_opt`: apply a partial function; `none` is a parse error. -/
def map_opt (p : Parser α) (f : α → Option β) : Parser β := fun i =>
  match p i with
  | .ok r a =>
    match f a with
    | some b => .ok r b
    | none => .fail
  | .fail => .fail
  | .abort => .abort

/-- nom `map_res`: the error payload of the Rust `Result` closure never
influences control flow, so the closure is modelled with `Option`. -/
def map_res (p : Parser α) (f : α → Option β) : Parser β := map_opt p f

/-- nom `map` whose Rust closure may panic (`todo!`): `none` from the
modelled closure is the panic. -/
def map_panic (p : Parser α) (f : α → Option β) : Parser β := fun i =>
  match p i with
  | .ok r a =>
    match f a with
    | some b => .ok r b
    | none => .abort
  | .fail => .fail
  | .abort => .abort

/-- nom `alt`: ordered choice, first branch that does not fail decides. -/
def alt : List (Parser α) → Parser α
  | [] => fun _ => .fail
  | p :: ps => fun i =>
    match p i with
    | .fail => alt ps i
    | r => r

/-- nom `pair`: run two rules in sequence. -/
def pair (p : Parser α) (q : Parser β) : Parser (α × β) := fun i =>
  match p i with
  | .ok i1 a =>
    match q i1 with
    | .ok i2 b => .ok i2 (a, b)
    | .fail => .fail
    | .abort => .abort
  | .fail => .fail
  | .abort => .abort

/-- nom `preceded`. -/
def preceded (p : Parser α) (q : Parser β) : Parser β := pmap (pair p q) Prod.snd

/-- nom `delimited`. -/
def delimited (a : Parser α) (b : Parser β) (c : Parser γ) : Parser β :=
  pmap (pair a (pair b c)) (fun x => x.2.1)

/-- nom `separated_pair`. -/
def separated_pair (a : Parser α) (s : Parser β) (b : Parser γ) : Parser (α × γ) :=
  pmap (pair a (pair s b)) (fun x => (x.1, x.2.2))

/-- nom `recognize`: return the consumed input slice instead of the value. -/
def recognize (p : Parser α) : Parser (List Char) := fun i =>
  match p i with
  | .ok i1 _ => .ok i1 (i.take (i.length - i1.length))
  | .fail => .fail
  | .abort => .abort

/-- The iteration of nom's `many0`/`fold_many0` loop, with explicit fuel.
Like nom, a successful inner parse that consumes nothing is an error (nom's
`ErrorKind::Many0` guard against infinite loops).  The fuel at every use
site is strictly larger than the input length, and since each iteration
consumes at least one character the `0` case is never reached there. -/
def many0Loop (p : Parser α) : Nat → Parser (List α)
  | 0 => fun _ => .fail
  | fuel + 1 => fun i =>
    match p i with
    | .abort => .abort
    | .fail => .ok i []
    | .ok i1 a =>
      if i1.length = i.length then .fail
      else
        match many0Loop p fuel i1 with
        | .ok i2 rest => .ok i2 (a :: rest)
        | .fail => .fail
        | .abort => .abort

/-- nom `many0`. -/
def many0 (p : Parser α) : Parser (List α) := fun i => many0Loop p (i.length + 1) i

/-- nom `many0_count` (same loop as `many0`, keeping only the count). -/
def many0_count (p : Parser α) : Parser Nat := pmap (many0 p) List.length

/-- nom `many1_count`: one mandatory parse, then the `many0` loop. -/
def many1_count (p : Parser α) : Parser Nat := fun i =>
  match p i with
  | .abort => .abort
  | .fail => .fail
  | .ok i1 _ =>
    match many0_count p i1 with
    | .ok i2 n => .ok i2 (n + 1)
    | .fail => .fail
    | .abort => .abort

/-- The fold loop shared by nom's `fold_many0`/`fold_many1`, with fuel
(see `many0Loop` for the fuel and zero-consumption conventions). -/
def foldLoop (p : Parser α) (g : β → α → β) : Nat → β → Parser β
  | 0, _ => fun _ => .fail
  | fuel + 1, acc => fun i =>
    match p i with
    | .abort => .abort
    | .fail => .ok i acc
    | .ok i1 a =>
      if i1.length = i.length then .fail
      else foldLoop p g fuel (g acc a) i1

/-- nom `fold_many0`. -/
def fold_many0 (p : Parser α) (init : β) (g : β → α → β) : Parser β :=
  fun i => foldLoop p g (i.length + 1) init i

/-- nom `fold_many1`: one mandatory parse, then the fold loop. -/
def fold_many1 (p : Parser α) (init : β) (g : β → α → β) : Parser β := fun i =>
  match p i with
  | .abort => .abort
  | .fail => .fail
  | .ok i1 a => foldLoop p g (i1.length + 1) (g init a) i1

/-- nom `permutation` for two rules: try the first, then the second; if the
first fails, try the second and then the first on the remainder; a slot
that already succeeded is not retried (unrolled from nom's loop). -/
def permutation2 (p : Parser α) (q : Parser β) : Parser (α × β) := fun i =>
  match p i with
  | .abort => .abort
  | .ok i1 a =>
    match q i1 with
    | .ok i2 b => .ok i2 (a, b)
    | .fail => .fail
    | .abort => .abort
  | .fail =>
    match q i with
    | .abort => .abort
    | .fail => .fail
    | .ok i1 b =>
      match p i1 with
      | .ok i2 a => .ok i2 (a, b)
      | .fail => .fail
      | .abort => .abort

/-- Helper for nom `take_until`: scan for the first position where `pat`
occurs, accumulating the scanned prefix (kept reversed). -/
def takeUntilGo (pat : List Char) : List Char → List Char → Option (List Char × List Char)
  | _, [] => none
  | acc, c :: rest =>
    if pat.isPrefixOf (c :: rest) then some (acc.reverse, c :: rest)
    else takeUntilGo pat (c :: acc) rest

/-- nom `take_until`: consume up to (not including) the first occurrence of
`pat`; fails if `pat` never occurs. -/
def take_until (pat : List Char) : Parser (List Char) := fun i =>
  match takeUntilGo pat [] i with
  | some (pre, rest) => .ok rest pre
  | none => .fail

/-- nom `is_not`: one or more characters, none of which is in `bad`. -/
def is_not (bad : List Char) : Parser (List Char) := fun i =>
  let taken := i.takeWhile (fun c => !bad.contains c)
  if taken.isEmpty then .fail else .ok (i.drop taken.length) taken

/-- Model of a Rust `f64` value.  Finite values are carried as exact
rationals; `inf`, `negInf` and `nan` model the IEEE special values.  IEEE
round-to-nearest is not modelled (finite arithmetic here is exact), and the
sign of zero is not tracked; every numeric input any claim depends on is
exactly representable in binary64, so on those inputs this model agrees
with `f64` bit for bit. -/
inductive F64 where
  | finite (q : ℚ)
  | inf
  | negInf
  | nan
deriving DecidableEq

/-- Rust `f64` negation. -/
def F64.neg : F64 → F64
  | .finite q => .finite (-q)
  | .inf => .negInf
  | .negInf => .inf
  | .nan => .nan

/-- Rust `f64` multiplication (exact on finite arguments, see `F64`). -/
def F64.mul : F64 → F64 → F64
  | .nan, _ => .nan
  | _, .nan => .nan
  | .finite a, .finite b => .finite (a * b)
  | .inf, .finite b => if b = 0 then .nan else if 0 < b then .inf else .negInf
  | .negInf, .finite b => if b = 0 then .nan else if 0 < b then .negInf else .inf
  | .finite a, .inf => if a = 0 then .nan else if 0 < a then .inf else .negInf
  | .finite a, .negInf => if a = 0 then .nan else if 0 < a then .negInf else .inf
  | .inf, .inf => .inf
  | .inf, .negInf => .negInf
  | .negInf, .inf => .negInf
  | .negInf, .negInf => .inf

/-- Rust `f64` division (exact on finite arguments; division by zero gives
the signed infinity or `nan` as in IEEE). -/
def F64.div : F64 → F64 → F64
  | .nan, _ => .nan
  | _, .nan => .nan
  | .finite a, .finite b =>
    if b = 0 then (if a = 0 then .nan else if 0 < a then .inf else .negInf)
    else .finite (a / b)
  | .finite _, .inf => .finite 0
  | .finite _, .negInf => .finite 0
  | .inf, .finite b => if 0 ≤ b then .inf else .negInf
  | .negInf, .finite b => if 0 ≤ b then .negInf else .inf
  | .inf, .inf => .nan
  | .inf, .negInf => .nan
  | .negInf, .inf => .nan
  | .negInf, .negInf => .nan

/-- Truncation of a rational toward zero (the rounding of Rust's
float-to-int `as` cast). -/
def ratTrunc (q : ℚ) : Int := if q < 0 then -(Rat.floor (-q)) else Rat.floor q

/-- Rust `x as i64` on an `f64`: truncates toward zero, saturates at the
`i64` range, and maps `nan` to 0. -/
def F64.toI64 : F64 → Int
  | .nan => 0
  | .inf => 2 ^ 63 - 1
  | .negInf => -(2 ^ 63)
  | .finite q =>
    let t := ratTrunc q
    if t < -(2 ^ 63) then -(2 ^ 63) else if 2 ^ 63 - 1 < t then 2 ^ 63 - 1 else t

/-- Rust `i as f64` on an `i64` (exact for every `|i| < 2^53`; the rounding
of larger magnitudes is not modelled, and no claim depends on one). -/
def f64ofInt (i : Int) : F64 := .finite (i : ℚ)

/-- Rust `==` on `f64`: `nan` compares unequal to everything. -/
def F64.beq : F64 → F64 → Bool
  | .nan, _ => false
  | _, .nan => false
  | .finite a, .finite b => a == b
  | .inf, .inf => true
  | .negInf, .negInf => true
  | _, _ => false

/-- Modelled from the spec: the `Number` type lives in the repository's
`number` module, which is not among the provided sources (src/lex.rs only
imports `crate::number::Number`).  Spec section 3: a tagged union
`Integer(signed 64-bit)`, `Rational{numerator: signed 64-bit, denominator:
unsigned 32-bit}`, `Real(64-bit float)`; the machine-width invariants are
maintained by the checked parsing below, not by the type. -/
inductive Number where
  | Integer (i : Int)
  | Rational (num : Int) (den : Nat)
  | Real (x : F64)
deriving DecidableEq

/-- Modelled from the spec: the `Neg` implementation for `Number` also
lives in the missing `number` module.  Spec sections 3, 4.3 and 8: an
optional sign precedes `ureal`, and `-5` lexes as `Integer(-5)`, so
negation negates the integer (or numerator, or real) magnitude.  The
magnitudes produced by the grammar are at most `2^63 - 1`, so `i64`
negation overflow is unreachable. -/
def Number.neg : Number → Number
  | .Integer i => .Integer (-i)
  | .Rational n d => .Rational (-n) d
  | .Real x => .Real x.neg

/-- The exactness marker of a numeric literal (src/lex.rs `enum Exactness`). -/
inductive Exactness where
  | Inexact
  | Exact
  | Unspecified
deriving DecidableEq

/-- The token type (src/lex.rs `enum Token`).  `String` carries the decoded
scalar values; `Identifier` captures no text, as in the source. -/
inductive Token where
  | Identifier
  | Boolean (b : Bool)
  | Number (n : Number)
  | Character (c : Char)
  | String (s : List Char)
  | OpenParen
  | CloseParen
  | OpenVec
  | OpenByteVec
  | Quote
  | BackQuote
  | Comma
  | CommaAt
  | Period
deriving DecidableEq

/-- Rust `i64::checked_mul`: the product, unless it leaves the `i64` range. -/
def checked_mul (a b : Int) : Option Int :=
  if -(2 ^ 63) ≤ a * b ∧ a * b < 2 ^ 63 then some (a * b) else none

/-- Rust `i64::checked_add`: the sum, unless it leaves the `i64` range. -/
def checked_add (a b : Int) : Option Int :=
  if -(2 ^ 63) ≤ a + b ∧ a + b < 2 ^ 63 then some (a + b) else none

/-- Rust `10i64.checked_pow e`: the power, unless it leaves the `i64` range. -/
def checkedPow10 (e : Nat) : Option Int :=
  if (10 : Int) ^ e < 2 ^ 63 then some ((10 : Int) ^ e) else none

/-- The value of a non-empty all-decimal-digit string (most significant
digit first); `none` otherwise. -/
def digitsToNat (s : List Char) : Option Nat :=
  if s ≠ [] ∧ s.all Char.isDigit then
    some (s.foldl (fun acc c => 10 * acc + (c.toNat - 48)) 0)
  else none

/-- Rust `str::parse::<u32>`: an optional leading `+`, then decimal digits,
failing on any other character or on overflow of the `u32` range. -/
def parseU32 (s : List Char) : Option Nat :=
  let t := match s with
    | '+' :: rest => rest
    | _ => s
  match digitsToNat t with
  | some v => if v < 2 ^ 32 then some v else none
  | none => none

/-- Models Rust `str::parse::<f64>` on the strings the `decimal` rule
recognizes: optional integer digits, a dot with optional fraction digits
(at least one of the two present), and an optional `e`-exponent; or plain
digits with an exponent.  The exact decimal value is computed (`F64` is
exact on finite values); round-to-nearest is not modelled, and every input
a claim depends on is exactly representable in binary64.  Signs, `inf` and
`nan` spellings never reach this function from the grammar. -/
def parseF64 (s : List Char) : Option F64 :=
  let mant := s.takeWhile (fun c => c != 'e')
  let rest := s.dropWhile (fun c => c != 'e')
  let expPart : Option Int :=
    match rest with
    | [] => some 0
    | _ :: e =>
      match e with
      | '+' :: ds => (digitsToNat ds).map Int.ofNat
      | '-' :: ds => (digitsToNat ds).map (fun n => -(n : Int))
      | ds => (digitsToNat ds).map Int.ofNat
  let ip := mant.takeWhile (fun c => c != '.')
  let fpDot := mant.dropWhile (fun c => c != '.')
  match expPart with
  | none => none
  | some e =>
    match (if ip = [] then some 0 else digitsToNat ip) with
    | none => none
    | some n =>
      match fpDot with
      | [] => if ip = [] then none else some (.finite ((n : ℚ) * (10 : ℚ) ^ e))
      | _ :: fp =>
        if ip = [] ∧ fp = [] then none
        else
          match (if fp = [] then some 0 else digitsToNat fp) with
          | none => none
          | some f =>
            some (.finite (((n : ℚ) + (f : ℚ) / (10 : ℚ) ^ fp.length) * (10 : ℚ) ^ e))

/-- Rust `char::from_u32`: a character for every valid Unicode scalar
value, `none` for surrogates and out-of-range values. -/
def charFromU32 (v : Nat) : Option Char :=
  if v < 0xd800 then some (Char.ofNat v)
  else if 0xe000 ≤ v ∧ v < 0x110000 then some (Char.ofNat v)
  else none

/-- src/lex.rs `digit::<R>`: tries the first `R` characters of the digit
alphabet against the first input character and returns the digit's value. -/
def digit (R : Nat) : Parser Nat := fun i =>
  match i with
  | [] => .fail
  | c :: rest =>
    match (("0123456789abcdef".toList).take R).findIdx? (fun x => x == c) with
    | some x => .ok rest x
    | none => .fail

/-- src/lex.rs `letter` (nom `AsChar::is_alpha`: ASCII alphabetic). -/
def letter : Parser Char := satisfy Char.isAlpha

/-- src/lex.rs `special_initial`. -/
def special_initial : Parser Char :=
  one_of ['!', '$', '%', '&', '*', '/', ':', '<', '=', '>', '?', '^', '_', '~']

/-- src/lex.rs `initial`. -/
def initial : Parser Char := alt [letter, special_initial]

/-- src/lex.rs `explicit_sign`. -/
def explicit_sign : Parser Char := one_of ['+', '-']

/-- src/lex.rs `special_subsequent`. -/
def special_subsequent : Parser Char := alt [explicit_sign, char '.', char '@']

/-- src/lex.rs `subsequent`.  The source converts the digit's value (not
its spelling) to a char via `AsChar::as_char`; the value is only ever
discarded, so the quirk is preserved verbatim. -/
def subsequent : Parser Char :=
  alt [initial, pmap (digit 10) (fun x => Char.ofNat x), special_subsequent]

/-- src/lex.rs `hex_scalar_value`.  The accumulator is a Rust `u32`; its
arithmetic wraps (release-build semantics), modelled by reducing modulo
`2^32`. -/
def hex_scalar_value : Parser Char :=
  map_opt (fold_many1 (digit 16) 0 (fun acc dig => (acc * 16 + dig) % 2 ^ 32))
    charFromU32

/-- src/lex.rs `inline_hex_escape`. -/
def inline_hex_escape : Parser Char := preceded (tag ['\\', 'x']) hex_scalar_value

/-- src/lex.rs `mnemonic_escape`. -/
def mnemonic_escape : Parser Char :=
  alt [
    value '\x07' (tag ['\\', 'a']),
    value '\x08' (tag ['\\', 'b']),
    value '\t' (tag ['\\', 't']),
    value '\n' (tag ['\\', 'n']),
    value '\r' (tag ['\\', 'r'])]

/-- src/lex.rs `sign_subsequent`. -/
def sign_subsequent : Parser Char := alt [initial, explicit_sign, char '@']

/-- src/lex.rs `dot_subsequent`. -/
def dot_subsequent : Parser Char := alt [sign_subsequent, char '.']

/-- src/lex.rs `peculiar_identifier`. -/
def peculiar_identifier : Parser (List Char) :=
  alt [
    recognize explicit_sign,
    recognize (pair explicit_sign
      (pair (tag ['.']) (pair dot_subsequent (many0 subsequent)))),
    recognize (pair (tag ['.']) (pair dot_subsequent (many0 subsequent)))]

/-- src/lex.rs `symbol_element`. -/
def symbol_element : Parser Char :=
  alt [
    none_of ['|', '\\'],
    inline_hex_escape,
    mnemonic_escape,
    value '|' (tag ['\\', '|'])]

/-- src/lex.rs `identifier`. -/
def identifier : Parser (List Char) :=
  alt [
    recognize (pair initial (many0_count subsequent)),
    delimited (tag ['|']) (recognize (many0_count symbol_element)) (tag ['|']),
    peculiar_identifier]

/-- src/lex.rs `boolean` (order matters: the long spellings first). -/
def boolean : Parser Bool :=
  alt [
    value true (tag "#true".toList),
    value false (tag "#false".toList),
    value true (tag "#t".toList),
    value false (tag "#f".toList)]

/-- src/lex.rs `character_name` (the source maps `delete` to `'\x1B'`). -/
def character_name : Parser Char :=
  alt [
    value '\x07' (tag "alarm".toList),
    value '\x08' (tag "backspace".toList),
    value '\x1B' (tag "delete".toList),
    value '\n' (tag "newline".toList),
    value '\x00' (tag "null".toList),
    value '\r' (tag "return".toList),
    value ' ' (tag "space".toList),
    value '\t' (tag "tab".toList)]

/-- src/lex.rs `character` (the raw-character branch comes first, exactly
as in the source). -/
def character : Parser Char :=
  alt [
    preceded (tag ['#', '\\']) anychar,
    preceded (tag ['#', '\\']) character_name,
    preceded (tag ['#', '\\', 'x']) hex_scalar_value]

/-- src/lex.rs `line_ending`. -/
def line_ending : Parser (List Char) := alt [tag ['\n'], tag ['\r', '\n'], tag ['\r']]

/-- src/lex.rs `intraline_whitespace`. -/
def intraline_whitespace : Parser Char := one_of [' ', '\t']

/-- src/lex.rs `whitespace`. -/
def whitespace : Parser (List Char) := alt [recognize intraline_whitespace, line_ending]

/-- src/lex.rs `string_element`.  The element is `Option Char`: the
line-continuation escape contributes no character. -/
def string_element : Parser (Option Char) :=
  alt [
    pmap (none_of ['"', '\\']) some,
    pmap mnemonic_escape some,
    value (some '"') (tag ['\\', '"']),
    value (some '\\') (tag ['\\', '\\']),
    value none (recognize (pair (tag ['\\'])
      (pair (many0_count intraline_whitespace)
        (pair line_ending (many0_count intraline_whitespace))))),
    pmap inline_hex_escape some]

/-- src/lex.rs `string` (the accumulator `String::extend` with an
`Option<char>` appends zero or one characters). -/
def string : Parser (List Char) :=
  delimited (tag ['"'])
    (fold_many0 string_element []
      (fun acc c =>
        match c with
        | some ch => acc ++ [ch]
        | none => acc))
    (tag ['"'])

/-- src/lex.rs `uinteger` fold step: `acc?.checked_mul(R as i64)?.checked_add(dig as i64)`. -/
def uintStep (R : Nat) (acc : Option Int) (dig : Nat) : Option Int :=
  acc.bind (fun a => (checked_mul a (R : Int)).bind (fun m => checked_add m (dig : Int)))

/-- src/lex.rs `uinteger::<R>`: digits folded most-significant-first with
checked multiply/add; the final `map_res` turns an overflowed (`None`)
accumulator into a parse failure. -/
def uinteger (R : Nat) : Parser Int :=
  map_res (fold_many1 (digit R) (some 0) (uintStep R)) (fun o => o)

/-- src/lex.rs `sign` (the empty alternative always succeeds). -/
def sign : Parser (List Char) := alt [tag ['+'], tag ['-'], tag []]

/-- src/lex.rs `suffix`: an `e`-exponent whose power of ten is computed
with `checked_pow`, or the empty suffix with multiplier 1. -/
def suffix : Parser Int :=
  alt [
    preceded (tag ['e'])
      (map_opt (recognize (pair sign (many1_count (digit 10))))
        (fun s => (parseU32 s).bind checkedPow10)),
    value 1 (tag [])]

/-- src/lex.rs `decimal::<R>`: the three radix-10 decimal shapes; every
other radix fails this production. -/
def decimal (R : Nat) : Parser Number :=
  match R with
  | 10 =>
    alt [
      map_res
        (pair
          (recognize (delimited (many1_count (digit 10)) (tag ['.'])
            (many0_count (digit 10))))
          suffix)
        (fun ds => (parseF64 ds.1).map (fun f => Number.Real (F64.mul f (f64ofInt ds.2)))),
      map_res
        (recognize (preceded (tag ['.']) (pair (many1_count (digit 10)) suffix)))
        (fun d => (parseF64 d).map Number.Real),
      map_opt (pair (uinteger 10) suffix)
        (fun ns =>
          some (match checked_mul ns.1 ns.2 with
            | some n => Number.Integer n
            | none => Number.Real (F64.mul (f64ofInt ns.1) (f64ofInt ns.2))))]
  | _ => fun _ => .fail

/-- src/lex.rs `ureal` rational branch closure:
`u32::try_from(den).map(|den| Rational { num, den })`. -/
def ratioMk (num den : Int) : Option Number :=
  if 0 ≤ den ∧ den < 2 ^ 32 then some (.Rational num den.toNat) else none

/-- src/lex.rs `ureal::<R>`: rational, then decimal, then plain uinteger. -/
def ureal (R : Nat) : Parser Number :=
  alt [
    map_res (separated_pair (uinteger R) (tag ['/']) (uinteger R))
      (fun nd => ratioMk nd.1 nd.2),
    decimal R,
    pmap (uinteger R) Number.Integer]

/-- src/lex.rs `infnan`. -/
def infnan : Parser Number :=
  pmap
    (alt [
      value F64.inf (tag "+inf.0".toList),
      value F64.negInf (tag "-inf.0".toList),
      value F64.nan (tag "+nan.0".toList),
      value F64.nan (tag "-nan.0".toList)])
    Number.Real

/-- src/lex.rs `real::<R>`: a signed `ureal` (a `-` sign negates the
value), or a named infinity/nan. -/
def real (R : Nat) : Parser Number :=
  alt [
    pmap (pair sign (ureal R)) (fun t => if t.1 = ['-'] then t.2.neg else t.2),
    infnan]

/-- src/lex.rs `complex::<R>` (complex numbers unsupported: just `real`). -/
def complex (R : Nat) : Parser Number := real R

/-- src/lex.rs `exactness`. -/
def exactness : Parser Exactness :=
  alt [
    value Exactness.Inexact (tag ['#', 'i']),
    value Exactness.Exact (tag ['#', 'e']),
    value Exactness.Unspecified (tag [])]

/-- src/lex.rs `radix::<R>`: the radix marker, `#d` or empty for radix 10;
any other radix value is `unreachable!` (modelled as `abort`), and only
2, 8, 10, 16 are ever instantiated. -/
def radix (R : Nat) : Parser Unit :=
  match R with
  | 2 => value () (tag ['#', 'b'])
  | 8 => value () (tag ['#', 'o'])
  | 10 => value () (alt [tag ['#', 'd'], tag []])
  | 16 => value () (tag ['#', 'x'])
  | _ => fun _ => .abort

/-- src/lex.rs `prefix::<R>` (renamed: `prefix` is a Lean keyword): the
radix and exactness markers in either order, keeping only the exactness. -/
def pfx (R : Nat) : Parser Exactness :=
  pmap (permutation2 (radix R) exactness) Prod.snd

/-- The exactness-application closure inside src/lex.rs `num::<R>`:
`none` models the `todo!("idk")` reached when `#e` is applied to a real
with no exact integer equivalent. -/
def exactCoerce : Exactness × Number → Option Number
  | (.Inexact, .Integer i) => some (.Real (f64ofInt i))
  | (.Inexact, .Real x) => some (.Real x)
  | (.Inexact, .Rational n d) => some (.Real (F64.div (f64ofInt n) (f64ofInt d)))
  | (.Exact, .Integer x) => some (.Integer x)
  | (.Exact, .Real x) =>
    if F64.beq (f64ofInt (F64.toI64 x)) x then some (.Integer (F64.toI64 x)) else none
  | (.Exact, .Rational n d) => some (.Rational n d)
  | (.Unspecified, x) => some x

/-- src/lex.rs `num::<R>`: prefix then complex, with the exactness applied
by a closure that can panic (hence `map_panic`). -/
def num (R : Nat) : Parser Number := map_panic (pair (pfx R) (complex R)) exactCoerce

/-- src/lex.rs `number`: all four radix instantiations in order. -/
def number : Parser Number := alt [num 2, num 8, num 10, num 16]

/-- src/lex.rs `datum`: the datum reader is out of scope; the production
always fails (nom `fail`). -/
def datum : Parser (List Char) := fun _ => .fail

/-- src/lex.rs `comment_text` (the source's `// TODO: support nesting`
scan): everything up to the next `|#`, with no awareness of `#|`. -/
def comment_text : Parser (List Char) := take_until ['|', '#']

/-- src/lex.rs `directive`. -/
def directive : Parser (List Char) :=
  alt [tag "#!fold-case".toList, tag "#!no-fold-case".toList]

/- The mutually recursive comment/atmosphere cluster of src/lex.rs
(`comment`, `nested_comment`, `comment_cont`, `atmosphere`,
`intertoken_space`), with explicit structural fuel: every recursive edge
costs one fuel unit, and every cycle through the cluster consumes at least
two input characters per at most three fuel units, so the fuel
`2 * length + 4` supplied by the wrappers below is never exhausted. -/
mutual

/-- src/lex.rs `comment`: a `;` line comment, a nested block comment, or a
datum comment `#;` (whose datum production always fails). -/
def commentF : Nat → Parser (List Char)
  | 0 => fun _ => .fail
  | fuel + 1 =>
    alt [
      preceded (char ';') (is_not ['\n', '\r']),
      nested_commentF fuel,
      preceded (pair (tag ['#', ';']) (intertoken_spaceF fuel)) datum]

/-- src/lex.rs `nested_comment`: `#|`, a comment body, then `|#`. -/
def nested_commentF : Nat → Parser (List Char)
  | 0 => fun _ => .fail
  | fuel + 1 =>
    delimited (tag ['#', '|'])
      (recognize (pair comment_text (many0_count (comment_contF fuel))))
      (tag ['|', '#'])

/-- src/lex.rs `comment_cont`: a nested comment followed by more body. -/
def comment_contF : Nat → Parser (List Char)
  | 0 => fun _ => .fail
  | fuel + 1 => recognize (pair (nested_commentF fuel) comment_text)

/-- src/lex.rs `atmosphere`. -/
def atmosphereF : Nat → Parser (List Char)
  | 0 => fun _ => .fail
  | fuel + 1 => alt [whitespace, commentF fuel, directive]

/-- src/lex.rs `intertoken_space`: zero or more atmosphere units. -/
def intertoken_spaceF : Nat → Parser (List Char)
  | 0 => fun _ => .fail
  | fuel + 1 => recognize (many0_count (atmosphereF fuel))

end

/-- src/lex.rs `intertoken_space`, with its fuel fixed from the input (see
the cluster's fuel note). -/
def intertoken_space : Parser (List Char) := fun i =>
  intertoken_spaceF (2 * i.length + 4) i

/-- src/lex.rs `nested_comment`, with its fuel fixed from the input. -/
def nested_comment : Parser (List Char) := fun i =>
  nested_commentF (2 * i.length + 4) i

/-- src/lex.rs `token`: the ordered token dispatcher, reproduced arm by
arm — including the source's final `value(Period, tag(","))` arm (note the
comma, and that it sits after the `Comma` arm). -/
def token : Parser Token :=
  alt [
    pmap boolean Token.Boolean,
    pmap number Token.Number,
    value Token.Identifier identifier,
    pmap character Token.Character,
    pmap string Token.String,
    value Token.OpenParen (tag ['(']),
    value Token.CloseParen (tag [')']),
    value Token.OpenVec (tag ['#', '(']),
    value Token.OpenByteVec (tag "#u8(".toList),
    value Token.Quote (tag [Char.ofNat 39]),
    value Token.BackQuote (tag [Char.ofNat 96]),
    value Token.CommaAt (tag [',', '@']),
    value Token.Comma (tag [',']),
    value Token.Period (tag [','])]

/-- src/lex.rs `lex`: the full pass. -/
def lex : Parser (List Token) :=
  many0 (delimited intertoken_space token intertoken_space)

/-- A rule that consumes at least one character whenever it succeeds. -/
def Consumes (p : Parser α) : Prop :=
  ∀ i r a, p i = .ok r a → r.length < i.length

/-- A rule that never returns more input than it was given. -/
def NonExp (p : Parser α) : Prop :=
  ∀ i r a, p i = .ok r a → r.length ≤ i.length

theorem Consumes.nonExp {p : Parser α} (h : Consumes p) : NonExp p :=
  fun i r a e => le_of_lt (h i r a e)

theorem tag_nonExp (s : List Char) : NonExp (tag s) := by
  intro i r a h
  unfold tag at h
  split at h
  next =>
    injection h with h1 _
    subst h1
    simp
  next => exact PResult.noConfusion h

theorem tag_consumes {s : List Char} (hs : s ≠ []) : Consumes (tag s) := by
  intro i r a h
  unfold tag at h
  split at h
  next hp =>
    injection h with h1 _
    subst h1
    have hle : s.length ≤ i.length := (List.isPrefixOf_iff_prefix.1 hp).length_le
    have hpos : 0 < s.length := List.length_pos.2 hs
    rw [List.length_drop]
    omega
  next => exact PResult.noConfusion h

theorem satisfy_consumes (f : Char → Bool) : Consumes (satisfy f) := by
  intro i r a h
  cases i with
  | nil => exact PResult.noConfusion h
  | cons c rest =>
    simp only [satisfy] at h
    split at h
    next =>
      injection h with h1 _
      subst h1
      simp
    next => exact PResult.noConfusion h

theorem digit_consumes (R : Nat) : Consumes (digit R) := by
  intro i r a h
  cases i with
  | nil => exact PResult.noConfusion h
  | cons c rest =>
    simp only [digit] at h
    split at h
    next =>
      injection h with h1 _
      subst h1
      simp
    next => exact PResult.noConfusion h

theorem is_not_consumes (bad : List Char) : Consumes (is_not bad) := by
  intro i r a h
  simp only [is_not] at h
  split at h
  next => exact PResult.noConfusion h
  next hne =>
    injection h with h1 _
    subst h1
    rw [List.length_drop]
    have h1 : (i.takeWhile (fun c => !bad.contains c)).length ≤ i.length :=
      (List.takeWhile_prefix _).length_le
    have h2 : ¬((i.takeWhile (fun c => !bad.contains c)) = []) := by
      simpa [List.isEmpty_iff] using hne
    have h3 : 0 < (i.takeWhile (fun c => !bad.contains c)).length :=
      List.length_pos.2 h2
    omega

theorem takeUntilGo_suffix (pat : List Char) :
    ∀ i acc pre rest, takeUntilGo pat acc i = some (pre, rest) →
      rest.length ≤ i.length := by
  intro i
  induction i with
  | nil => intro acc pre rest h; exact Option.noConfusion h
  | cons c cs ih =>
    intro acc pre rest h
    simp only [takeUntilGo] at h
    split at h
    next =>
      injection h with h1
      injection h1 with _ h3
      subst h3
      exact le_refl _
    next => exact le_trans (ih _ _ _ h) (by simp)

theorem take_until_nonExp (pat : List Char) : NonExp (take_until pat) := by
  intro i r a h
  unfold take_until at h
  cases hg : takeUntilGo pat [] i with
  | none => rw [hg] at h; exact PResult.noConfusion h
  | some pr =>
    rw [hg] at h
    injection h with h1 _
    subst h1
    exact takeUntilGo_suffix pat i [] pr.1 pr.2 (by rw [hg])

theorem pmap_ok {p : Parser α} {f : α → β} {i : List Char} {r : List Char} {b : β}
    (h : pmap p f i = .ok r b) : ∃ a, p i = .ok r a := by
  cases hp : p i with
  | ok r1 a1 =>
    simp only [pmap, hp] at h
    injection h with h1 _
    subst h1
    exact ⟨a1, rfl⟩
  | fail => simp [pmap, hp] at h
  | abort => simp [pmap, hp] at h

theorem pmap_consumes {p : Parser α} (f : α → β) (h : Consumes p) :
    Consumes (pmap p f) := by
  intro i r b hb
  obtain ⟨a, ha⟩ := pmap_ok hb
  exact h i r a ha

theorem pmap_nonExp {p : Parser α} (f : α → β) (h : NonExp p) :
    NonExp (pmap p f) := by
  intro i r b hb
  obtain ⟨a, ha⟩ := pmap_ok hb
  exact h i r a ha

theorem map_opt_ok {p : Parser α} {f : α → Option β} {i : List Char}
    {r : List Char} {b : β} (h : map_opt p f i = .ok r b) :
    ∃ a, p i = .ok r a ∧ f a = some b := by
  cases hp : p i with
  | ok r1 a1 =>
    simp only [map_opt, hp] at h
    cases hf : f a1 with
    | some b1 =>
      rw [hf] at h
      injection h with h1 h2
      subst h1
      subst h2
      exact ⟨a1, rfl, hf⟩
    | none => rw [hf] at h; exact PResult.noConfusion h
  | fail => simp [map_opt, hp] at h
  | abort => simp [map_opt, hp] at h

theorem map_opt_consumes {p : Parser α} (f : α → Option β) (h : Consumes p) :
    Consumes (map_opt p f) := by
  intro i r b hb
  obtain ⟨a, ha, _⟩ := map_opt_ok hb
  exact h i r a ha

theorem map_opt_nonExp {p : Parser α} (f : α → Option β) (h : NonExp p) :
    NonExp (map_opt p f) := by
  intro i r b hb
  obtain ⟨a, ha, _⟩ := map_opt_ok hb
  exact h i r a ha

theorem map_panic_ok {p : Parser α} {f : α → Option β} {i : List Char}
    {r : List Char} {b : β} (h : map_panic p f i = .ok r b) :
    ∃ a, p i = .ok r a := by
  cases hp : p i with
  | ok r1 a1 =>
    simp only [map_panic, hp] at h
    cases hf : f a1 with
    | some b1 =>
      rw [hf] at h
      injection h with h1 _
      subst h1
      exact ⟨a1, rfl⟩
    | none => rw [hf] at h; exact PResult.noConfusion h
  | fail => simp [map_panic, hp] at h
  | abort => simp [map_panic, hp] at h

theorem map_panic_consumes {p : Parser α} (f : α → Option β) (h : Consumes p) :
    Consumes (map_panic p f) := by
  intro i r b hb
  obtain ⟨a, ha⟩ := map_panic_ok hb
  exact h i r a ha

theorem recognize_ok {p : Parser α} {i r : List Char} {a : List Char}
    (h : recognize p i = .ok r a) : ∃ b, p i = .ok r b := by
  cases hp : p i with
  | ok r1 a1 =>
    simp only [recognize, hp] at h
    injection h with h1 _
    subst h1
    exact ⟨a1, rfl⟩
  | fail => simp [recognize, hp] at h
  | abort => simp [recognize, hp] at h

theorem recognize_consumes {p : Parser α} (h : Consumes p) :
    Consumes (recognize p) := by
  intro i r a ha
  obtain ⟨b, hb⟩ := recognize_ok ha
  exact h i r b hb

theorem recognize_nonExp {p : Parser α} (h : NonExp p) : NonExp (recognize p) := by
  intro i r a ha
  obtain ⟨b, hb⟩ := recognize_ok ha
  exact h i r b hb

theorem pair_ok {p : Parser α} {q : Parser β} {i r : List Char} {v : α × β}
    (h : pair p q i = .ok r v) :
    ∃ i1 a b, p i = .ok i1 a ∧ q i1 = .ok r b := by
  cases hp : p i with
  | ok i1 a =>
    cases hq : q i1 with
    | ok i2 b =>
      simp only [pair, hp, hq] at h
      injection h with h1 _
      subst h1
      exact ⟨i1, a, b, rfl, hq⟩
    | fail => simp [pair, hp, hq] at h
    | abort => simp [pair, hp, hq] at h
  | fail => simp [pair, hp] at h
  | abort => simp [pair, hp] at h

theorem pair_nonExp {p : Parser α} {q : Parser β} (hp : NonExp p) (hq : NonExp q) :
    NonExp (pair p q) := by
  intro i r v h
  obtain ⟨i1, a, b, h1, h2⟩ := pair_ok h
  exact le_trans (hq i1 r b h2) (hp i i1 a h1)

theorem pair_consumes_left {p : Parser α} {q : Parser β} (hp : Consumes p)
    (hq : NonExp q) : Consumes (pair p q) := by
  intro i r v h
  obtain ⟨i1, a, b, h1, h2⟩ := pair_ok h
  exact lt_of_le_of_lt (hq i1 r b h2) (hp i i1 a h1)

theorem pair_consumes_right {p : Parser α} {q : Parser β} (hp : NonExp p)
    (hq : Consumes q) : Consumes (pair p q) := by
  intro i r v h
  obtain ⟨i1, a, b, h1, h2⟩ := pair_ok h
  exact lt_of_lt_of_le (hq i1 r b h2) (hp i i1 a h1)

theorem alt_nil_consumes : Consumes (alt ([] : List (Parser α))) := by
  intro i r a h
  exact PResult.noConfusion h

theorem alt_nil_nonExp : NonExp (alt ([] : List (Parser α))) := by
  intro i r a h
  exact PResult.noConfusion h

theorem alt_cons_consumes {p : Parser α} {ps : List (Parser α)}
    (hp : Consumes p) (hps : Consumes (alt ps)) : Consumes (alt (p :: ps)) := by
  intro i r a h
  cases hpi : p i with
  | fail =>
    simp only [alt, hpi] at h
    exact hps i r a h
  | ok r1 a1 =>
    simp only [alt, hpi] at h
    injection h with h1 _
    subst h1
    exact hp i r1 a1 hpi
  | abort =>
    simp only [alt, hpi] at h
    exact PResult.noConfusion h

theorem alt_cons_nonExp {p : Parser α} {ps : List (Parser α)}
    (hp : NonExp p) (hps : NonExp (alt ps)) : NonExp (alt (p :: ps)) := by
  intro i r a h
  cases hpi : p i with
  | fail =>
    simp only [alt, hpi] at h
    exact hps i r a h
  | ok r1 a1 =>
    simp only [alt, hpi] at h
    injection h with h1 _
    subst h1
    exact hp i r1 a1 hpi
  | abort =>
    simp only [alt, hpi] at h
    exact PResult.noConfusion h

theorem permutation2_nonExp {p : Parser α} {q : Parser β} (hp : NonExp p)
    (hq : NonExp q) : NonExp (permutation2 p q) := by
  intro i r v h
  cases hpi : p i with
  | abort => simp [permutation2, hpi] at h
  | ok i1 a =>
    cases hqi : q i1 with
    | ok i2 b =>
      simp only [permutation2, hpi, hqi] at h
      injection h with h1 _
      subst h1
      exact le_trans (hq i1 i2 b hqi) (hp i i1 a hpi)
    | fail => simp [permutation2, hpi, hqi] at h
    | abort => simp [permutation2, hpi, hqi] at h
  | fail =>
    cases hqi : q i with
    | abort => simp [permutation2, hpi, hqi] at h
    | fail => simp [permutation2, hpi, hqi] at h
    | ok i1 b =>
      cases hpi1 : p i1 with
      | ok i2 a =>
        simp only [permutation2, hpi, hqi, hpi1] at h
        injection h with h1 _
        subst h1
        exact le_trans (hp i1 i2 a hpi1) (hq i i1 b hqi)
      | fail => simp [permutation2, hpi, hqi, hpi1] at h
      | abort => simp [permutation2, hpi, hqi, hpi1] at h

theorem foldLoop_nonExp {p : Parser α} {g : β → α → β} (hp : NonExp p) :
    ∀ fuel acc, NonExp (foldLoop p g fuel acc) := by
  intro fuel
  induction fuel with
  | zero => intro acc i r b h; exact PResult.noConfusion h
  | succ n ih =>
    intro acc i r b h
    cases hpi : p i with
    | abort => simp [foldLoop, hpi] at h
    | fail =>
      simp only [foldLoop, hpi] at h
      injection h with h1 _
      subst h1
      exact le_refl _
    | ok i1 a =>
      simp only [foldLoop, hpi] at h
      split at h
      next => exact PResult.noConfusion h
      next => exact le_trans (ih (g acc a) i1 r b h) (hp i i1 a hpi)

theorem fold_many0_nonExp {p : Parser α} {g : β → α → β} {init : β}
    (hp : NonExp p) : NonExp (fold_many0 p init g) := by
  intro i r b h
  exact foldLoop_nonExp hp (i.length + 1) init i r b h

theorem fold_many1_consumes {p : Parser α} {g : β → α → β} {init : β}
    (hpc : Consumes p) (hpe : NonExp p) : Consumes (fold_many1 p init g) := by
  intro i r b h
  cases hpi : p i with
  | abort => simp [fold_many1, hpi] at h
  | fail => simp [fold_many1, hpi] at h
  | ok i1 a =>
    simp only [fold_many1, hpi] at h
    exact lt_of_le_of_lt (foldLoop_nonExp hpe _ _ i1 r b h) (hpc i i1 a hpi)

theorem many0Loop_nonExp {p : Parser α} (hp : NonExp p) :
    ∀ fuel, NonExp (many0Loop p fuel) := by
  intro fuel
  induction fuel with
  | zero => intro i r b h; exact PResult.noConfusion h
  | succ n ih =>
    intro i r b h
    cases hpi : p i with
    | abort => simp [many0Loop, hpi] at h
    | fail =>
      simp only [many0Loop, hpi] at h
      injection h with h1 _
      subst h1
      exact le_refl _
    | ok i1 a =>
      simp only [many0Loop, hpi] at h
      split at h
      next => exact PResult.noConfusion h
      next =>
        cases hrec : many0Loop p n i1 with
        | ok i2 rest =>
          rw [hrec] at h
          injection h with h1 _
          subst h1
          exact le_trans (ih i1 i2 rest hrec) (hp i i1 a hpi)
        | fail => rw [hrec] at h; exact PResult.noConfusion h
        | abort => rw [hrec] at h; exact PResult.noConfusion h

theorem many0_nonExp {p : Parser α} (hp : NonExp p) : NonExp (many0 p) := by
  intro i r b h
  exact many0Loop_nonExp hp (i.length + 1) i r b h

theorem many0_count_nonExp {p : Parser α} (hp : NonExp p) :
    NonExp (many0_count p) :=
  pmap_nonExp _ (many0_nonExp hp)

theorem many1_count_consumes {p : Parser α} (hpc : Consumes p) (hpe : NonExp p) :
    Consumes (many1_count p) := by
  intro i r b h
  cases hpi : p i with
  | abort => simp [many1_count, hpi] at h
  | fail => simp [many1_count, hpi] at h
  | ok i1 a =>
    simp only [many1_count, hpi] at h
    cases hm : many0_count p i1 with
    | ok i2 n =>
      rw [hm] at h
      injection h with h1 _
      subst h1
      exact lt_of_le_of_lt (many0_count_nonExp hpe i1 i2 n hm) (hpc i i1 a hpi)
    | fail => rw [hm] at h; exact PResult.noConfusion h
    | abort => rw [hm] at h; exact PResult.noConfusion h

theorem many1_count_nonExp {p : Parser α} (hpe : NonExp p) :
    NonExp (many1_count p) := by
  intro i r b h
  cases hpi : p i with
  | abort => simp [many1_count, hpi] at h
  | fail => simp [many1_count, hpi] at h
  | ok i1 a =>
    simp only [many1_count, hpi] at h
    cases hm : many0_count p i1 with
    | ok i2 n =>
      rw [hm] at h
      injection h with h1 _
      subst h1
      exact le_trans (many0_count_nonExp hpe i1 i2 n hm) (hpe i i1 a hpi)
    | fail => rw [hm] at h; exact PResult.noConfusion h
    | abort => rw [hm] at h; exact PResult.noConfusion h

theorem letter_consumes : Consumes letter := satisfy_consumes _

theorem special_initial_consumes : Consumes special_initial := satisfy_consumes _

theorem initial_consumes : Consumes initial :=
  alt_cons_consumes letter_consumes
    (alt_cons_consumes special_initial_consumes alt_nil_consumes)

theorem explicit_sign_consumes : Consumes explicit_sign := satisfy_consumes _

theorem special_subsequent_consumes : Consumes special_subsequent :=
  alt_cons_consumes explicit_sign_consumes
    (alt_cons_consumes (satisfy_consumes _)
      (alt_cons_consumes (satisfy_consumes _) alt_nil_consumes))

theorem subsequent_consumes : Consumes subsequent :=
  alt_cons_consumes initial_consumes
    (alt_cons_consumes (pmap_consumes _ (digit_consumes 10))
      (alt_cons_consumes special_subsequent_consumes alt_nil_consumes))

theorem hex_scalar_value_consumes : Consumes hex_scalar_value :=
  map_opt_consumes _
    (fold_many1_consumes (digit_consumes 16) (digit_consumes 16).nonExp)

theorem inline_hex_escape_consumes : Consumes inline_hex_escape :=
  pmap_consumes _
    (pair_consumes_left (tag_consumes (by decide)) hex_scalar_value_consumes.nonExp)

theorem mnemonic_escape_consumes : Consumes mnemonic_escape :=
  alt_cons_consumes (pmap_consumes _ (tag_consumes (by decide)))
    (alt_cons_consumes (pmap_consumes _ (tag_consumes (by decide)))
      (alt_cons_consumes (pmap_consumes _ (tag_consumes (by decide)))
        (alt_cons_consumes (pmap_consumes _ (tag_consumes (by decide)))
          (alt_cons_consumes (pmap_consumes _ (tag_consumes (by decide)))
            alt_nil_consumes))))

theorem sign_subsequent_consumes : Consumes sign_subsequent :=
  alt_cons_consumes initial_consumes
    (alt_cons_consumes explicit_sign_consumes
      (alt_cons_consumes (satisfy_consumes _) alt_nil_consumes))

theorem dot_subsequent_consumes : Consumes dot_subsequent :=
  alt_cons_consumes sign_subsequent_consumes
    (alt_cons_consumes (satisfy_consumes _) alt_nil_consumes)

theorem peculiar_identifier_consumes : Consumes peculiar_identifier :=
  alt_cons_consumes (recognize_consumes explicit_sign_consumes)
    (alt_cons_consumes
      (recognize_consumes (pair_consumes_left explicit_sign_consumes
        (pair_nonExp (tag_nonExp _)
          (pair_nonExp dot_subsequent_consumes.nonExp
            (many0_nonExp subsequent_consumes.nonExp)))))
      (alt_cons_consumes
        (recognize_consumes (pair_consumes_left (tag_consumes (by decide))
          (pair_nonExp dot_subsequent_consumes.nonExp
            (many0_nonExp subsequent_consumes.nonExp))))
        alt_nil_consumes))

theorem symbol_element_nonExp : NonExp symbol_element :=
  alt_cons_nonExp (satisfy_consumes _).nonExp
    (alt_cons_nonExp inline_hex_escape_consumes.nonExp
      (alt_cons_nonExp mnemonic_escape_consumes.nonExp
        (alt_cons_nonExp (pmap_nonExp _ (tag_nonExp _)) alt_nil_nonExp)))

theorem identifier_consumes : Consumes identifier :=
  alt_cons_consumes
    (recognize_consumes (pair_consumes_left initial_consumes
      (many0_count_nonExp subsequent_consumes.nonExp)))
    (alt_cons_consumes
      (pmap_consumes _ (pair_consumes_left (tag_consumes (by decide))
        (pair_nonExp (recognize_nonExp (many0_count_nonExp symbol_element_nonExp))
          (tag_nonExp _))))
      (alt_cons_consumes peculiar_identifier_consumes alt_nil_consumes))

theorem boolean_consumes : Consumes boolean :=
  alt_cons_consumes (pmap_consumes _ (tag_consumes (by decide)))
    (alt_cons_consumes (pmap_consumes _ (tag_consumes (by decide)))
      (alt_cons_consumes (pmap_consumes _ (tag_consumes (by decide)))
        (alt_cons_consumes (pmap_consumes _ (tag_consumes (by decide)))
          alt_nil_consumes)))

theorem character_name_nonExp : NonExp character_name :=
  alt_cons_nonExp (pmap_nonExp _ (tag_nonExp _))
    (alt_cons_nonExp (pmap_nonExp _ (tag_nonExp _))
      (alt_cons_nonExp (pmap_nonExp _ (tag_nonExp _))
        (alt_cons_nonExp (pmap_nonExp _ (tag_nonExp _))
          (alt_cons_nonExp (pmap_nonExp _ (tag_nonExp _))
            (alt_cons_nonExp (pmap_nonExp _ (tag_nonExp _))
              (alt_cons_nonExp (pmap_nonExp _ (tag_nonExp _))
                (alt_cons_nonExp (pmap_nonExp _ (tag_nonExp _)) alt_nil_nonExp)))))))

theorem character_consumes : Consumes character :=
  alt_cons_consumes
    (pmap_consumes _
      (pair_consumes_left (tag_consumes (by decide)) (satisfy_consumes _).nonExp))
    (alt_cons_consumes
      (pmap_consumes _
        (pair_consumes_left (tag_consumes (by decide)) character_name_nonExp))
      (alt_cons_consumes
        (pmap_consumes _
          (pair_consumes_left (tag_consumes (by decide))
            hex_scalar_value_consumes.nonExp))
        alt_nil_consumes))

theorem line_ending_consumes : Consumes line_ending :=
  alt_cons_consumes (tag_consumes (by decide))
    (alt_cons_consumes (tag_consumes (by decide))
      (alt_cons_consumes (tag_consumes (by decide)) alt_nil_consumes))

theorem intraline_whitespace_consumes : Consumes intraline_whitespace :=
  satisfy_consumes _

theorem whitespace_consumes : Consumes whitespace :=
  alt_cons_consumes (recognize_consumes intraline_whitespace_consumes)
    (alt_cons_consumes line_ending_consumes alt_nil_consumes)

theorem string_element_nonExp : NonExp string_element :=
  alt_cons_nonExp (pmap_nonExp _ (satisfy_consumes _).nonExp)
    (alt_cons_nonExp (pmap_nonExp _ mnemonic_escape_consumes.nonExp)
      (alt_cons_nonExp (pmap_nonExp _ (tag_nonExp _))
        (alt_cons_nonExp (pmap_nonExp _ (tag_nonExp _))
          (alt_cons_nonExp
            (pmap_nonExp _ (recognize_nonExp (pair_nonExp (tag_nonExp _)
              (pair_nonExp (many0_count_nonExp intraline_whitespace_consumes.nonExp)
                (pair_nonExp line_ending_consumes.nonExp
                  (many0_count_nonExp intraline_whitespace_consumes.nonExp))))))
            (alt_cons_nonExp (pmap_nonExp _ inline_hex_escape_consumes.nonExp)
              alt_nil_nonExp)))))

theorem string_consumes : Consumes string :=
  pmap_consumes _
    (pair_consumes_left (tag_consumes (by decide))
      (pair_nonExp (fold_many0_nonExp string_element_nonExp) (tag_nonExp _)))

theorem uinteger_consumes (R : Nat) : Consumes (uinteger R) :=
  map_opt_consumes _
    (fold_many1_consumes (digit_consumes R) (digit_consumes R).nonExp)

theorem sign_nonExp : NonExp sign :=
  alt_cons_nonExp (tag_nonExp _)
    (alt_cons_nonExp (tag_nonExp _)
      (alt_cons_nonExp (tag_nonExp _) alt_nil_nonExp))

theorem suffix_nonExp : NonExp suffix :=
  alt_cons_nonExp
    (pmap_nonExp _ (pair_nonExp (tag_nonExp _)
      (map_opt_nonExp _ (recognize_nonExp (pair_nonExp sign_nonExp
        (many1_count_nonExp (digit_consumes 10).nonExp))))))
    (alt_cons_nonExp (pmap_nonExp _ (tag_nonExp _)) alt_nil_nonExp)

theorem decimal_consumes (R : Nat) : Consumes (decimal R) := by
  unfold decimal
  split
  · exact
      alt_cons_consumes
        (map_opt_consumes _
          (pair_consumes_left
            (recognize_consumes (pmap_consumes _
              (pair_consumes_left
                (many1_count_consumes (digit_consumes 10) (digit_consumes 10).nonExp)
                (pair_nonExp (tag_nonExp _)
                  (many0_count_nonExp (digit_consumes 10).nonExp)))))
            suffix_nonExp))
        (alt_cons_consumes
          (map_opt_consumes _
            (recognize_consumes (pmap_consumes _
              (pair_consumes_left (tag_consumes (by decide))
                (pair_nonExp (many1_count_nonExp (digit_consumes 10).nonExp)
                  suffix_nonExp)))))
          (alt_cons_consumes
            (map_opt_consumes _ (pair_consumes_left (uinteger_consumes 10) suffix_nonExp))
            alt_nil_consumes))
  · intro i r a h
    exact PResult.noConfusion h

theorem ureal_consumes (R : Nat) : Consumes (ureal R) :=
  alt_cons_consumes
    (map_opt_consumes _
      (pmap_consumes _ (pair_consumes_left (uinteger_consumes R)
        (pair_nonExp (tag_nonExp _) (uinteger_consumes R).nonExp))))
    (alt_cons_consumes (decimal_consumes R)
      (alt_cons_consumes (pmap_consumes _ (uinteger_consumes R)) alt_nil_consumes))

theorem infnan_consumes : Consumes infnan :=
  pmap_consumes _
    (alt_cons_consumes (pmap_consumes _ (tag_consumes (by decide)))
      (alt_cons_consumes (pmap_consumes _ (tag_consumes (by decide)))
        (alt_cons_consumes (pmap_consumes _ (tag_consumes (by decide)))
          (alt_cons_consumes (pmap_consumes _ (tag_consumes (by decide)))
            alt_nil_consumes))))

theorem real_consumes (R : Nat) : Consumes (real R) :=
  alt_cons_consumes
    (pmap_consumes _ (pair_consumes_right sign_nonExp (ureal_consumes R)))
    (alt_cons_consumes infnan_consumes alt_nil_consumes)

theorem exactness_nonExp : NonExp exactness :=
  alt_cons_nonExp (pmap_nonExp _ (tag_nonExp _))
    (alt_cons_nonExp (pmap_nonExp _ (tag_nonExp _))
      (alt_cons_nonExp (pmap_nonExp _ (tag_nonExp _)) alt_nil_nonExp))

theorem radix_nonExp (R : Nat) : NonExp (radix R) := by
  unfold radix
  split
  · exact pmap_nonExp _ (tag_nonExp _)
  · exact pmap_nonExp _ (tag_nonExp _)
  · exact pmap_nonExp _
      (alt_cons_nonExp (tag_nonExp _)
        (alt_cons_nonExp (tag_nonExp _) alt_nil_nonExp))
  · exact pmap_nonExp _ (tag_nonExp _)
  · intro i r a h
    exact PResult.noConfusion h

theorem pfx_nonExp (R : Nat) : NonExp (pfx R) :=
  pmap_nonExp _ (permutation2_nonExp (radix_nonExp R) exactness_nonExp)

theorem num_consumes (R : Nat) : Consumes (num R) :=
  map_panic_consumes _ (pair_consumes_right (pfx_nonExp R) (real_consumes R))

theorem number_consumes : Consumes number :=
  alt_cons_consumes (num_consumes 2)
    (alt_cons_consumes (num_consumes 8)
      (alt_cons_consumes (num_consumes 10)
        (alt_cons_consumes (num_consumes 16) alt_nil_consumes)))

theorem token_consumes : Consumes token :=
  alt_cons_consumes (pmap_consumes _ boolean_consumes)
    (alt_cons_consumes (pmap_consumes _ number_consumes)
      (alt_cons_consumes (pmap_consumes _ identifier_consumes)
        (alt_cons_consumes (pmap_consumes _ character_consumes)
          (alt_cons_consumes (pmap_consumes _ string_consumes)
            (alt_cons_consumes (pmap_consumes _ (tag_consumes (by decide)))
              (alt_cons_consumes (pmap_consumes _ (tag_consumes (by decide)))
                (alt_cons_consumes (pmap_consumes _ (tag_consumes (by decide)))
                  (alt_cons_consumes (pmap_consumes _ (tag_consumes (by decide)))
                    (alt_cons_consumes (pmap_consumes _ (tag_consumes (by decide)))
                      (alt_cons_consumes (pmap_consumes _ (tag_consumes (by decide)))
                        (alt_cons_consumes (pmap_consumes _ (tag_consumes (by decide)))
                          (alt_cons_consumes
                            (pmap_consumes _ (tag_consumes (by decide)))
                            (alt_cons_consumes
                              (pmap_consumes _ (tag_consumes (by decide)))
                              alt_nil_consumes)))))))))))))

theorem datum_nonExp : NonExp datum := by
  intro i r a h
  exact PResult.noConfusion h

theorem directive_nonExp : NonExp directive :=
  alt_cons_nonExp (tag_nonExp _)
    (alt_cons_nonExp (tag_nonExp _) alt_nil_nonExp)

theorem cluster_nonExp (fuel : Nat) :
    NonExp (commentF fuel) ∧ NonExp (nested_commentF fuel) ∧
    NonExp (comment_contF fuel) ∧ NonExp (atmosphereF fuel) ∧
    NonExp (intertoken_spaceF fuel) := by
  induction fuel with
  | zero =>
    refine ⟨?_, ?_, ?_, ?_, ?_⟩ <;> intro i r a h <;> exact PResult.noConfusion h
  | succ n ih =>
    obtain ⟨hc, hn, hcc, ha, hits⟩ := ih
    refine ⟨?_, ?_, ?_, ?_, ?_⟩
    · simp only [commentF]
      exact
        alt_cons_nonExp
          (pmap_nonExp _ (pair_nonExp (satisfy_consumes _).nonExp
            (is_not_consumes _).nonExp))
          (alt_cons_nonExp hn
            (alt_cons_nonExp
              (pmap_nonExp _ (pair_nonExp (pair_nonExp (tag_nonExp _) hits)
                datum_nonExp))
              alt_nil_nonExp))
    · simp only [nested_commentF]
      exact pmap_nonExp _ (pair_nonExp (tag_nonExp _)
        (pair_nonExp
          (recognize_nonExp (pair_nonExp (take_until_nonExp _)
            (many0_count_nonExp hcc)))
          (tag_nonExp _)))
    · simp only [comment_contF]
      exact recognize_nonExp (pair_nonExp hn (take_until_nonExp _))
    · simp only [atmosphereF]
      exact alt_cons_nonExp whitespace_consumes.nonExp
        (alt_cons_nonExp hc (alt_cons_nonExp directive_nonExp alt_nil_nonExp))
    · simp only [intertoken_spaceF]
      exact recognize_nonExp (many0_count_nonExp ha)

theorem intertoken_space_nonExp : NonExp intertoken_space := by
  intro i r a h
  exact (cluster_nonExp (2 * i.length + 4)).2.2.2.2 i r a h

theorem lex_step_consumes : Consumes (delimited intertoken_space token intertoken_space) :=
  pmap_consumes _
    (pair_consumes_right intertoken_space_nonExp
      (pair_consumes_left token_consumes intertoken_space_nonExp))

theorem many0Loop_ne_fail {p : Parser α} (hp : Consumes p) :
    ∀ fuel i, i.length < fuel → (many0Loop p fuel i).isFail = false := by
  intro fuel
  induction fuel with
  | zero => intro i h; exact absurd h (Nat.not_lt_zero _)
  | succ n ih =>
    intro i hlen
    cases hpi : p i with
    | abort => simp [many0Loop, hpi, PResult.isFail]
    | fail => simp [many0Loop, hpi, PResult.isFail]
    | ok i1 a =>
      have hlt := hp i i1 a hpi
      have hne : ¬(i1.length = i.length) := by omega
      have hrec := ih i1 (by omega)
      cases hrec2 : many0Loop p n i1 with
      | ok i2 rest => simp [many0Loop, hpi, hne, hrec2, PResult.isFail]
      | fail => rw [hrec2] at hrec; simp [PResult.isFail] at hrec
      | abort => simp [many0Loop, hpi, hne, hrec2, PResult.isFail]

theorem checked_mul_some {a b c : Int} (h : checked_mul a b = some c) :
    c = a * b ∧ -(2 ^ 63) ≤ c ∧ c < 2 ^ 63 := by
  unfold checked_mul at h
  split at h
  next hin =>
    injection h with h1
    subst h1
    exact ⟨rfl, hin.1, hin.2⟩
  next => exact Option.noConfusion h

theorem checked_add_some {a b c : Int} (h : checked_add a b = some c) :
    c = a + b ∧ -(2 ^ 63) ≤ c ∧ c < 2 ^ 63 := by
  unfold checked_add at h
  split at h
  next hin =>
    injection h with h1
    subst h1
    exact ⟨rfl, hin.1, hin.2⟩
  next => exact Option.noConfusion h

theorem uintStep_some {R : Nat} {acc : Option Int} {dig : Nat} {a' : Int}
    (h : uintStep R acc dig = some a') (hacc : ∀ a, acc = some a → 0 ≤ a) :
    0 ≤ a' ∧ a' < 2 ^ 63 := by
  unfold uintStep at h
  cases acc with
  | none => exact Option.noConfusion h
  | some a0 =>
    simp only [Option.bind] at h
    cases hm : checked_mul a0 (R : Int) with
    | none => rw [hm] at h; exact Option.noConfusion h
    | some m =>
      rw [hm] at h
      obtain ⟨he, _, hhi⟩ := checked_add_some h
      obtain ⟨hme, _, _⟩ := checked_mul_some hm
      have h0 : (0 : Int) ≤ a0 := hacc a0 rfl
      have hm0 : (0 : Int) ≤ m := by
        rw [hme]
        exact mul_nonneg h0 (Int.natCast_nonneg R)
      have hd0 : (0 : Int) ≤ (dig : Int) := Int.natCast_nonneg dig
      constructor
      · rw [he]; exact add_nonneg hm0 hd0
      · exact hhi

theorem uintFold_bound (R : Nat) :
    ∀ fuel acc i r o, foldLoop (digit R) (uintStep R) fuel acc i = .ok r o →
      (∀ a, acc = some a → 0 ≤ a ∧ a < 2 ^ 63) →
      (∀ v, o = some v → 0 ≤ v ∧ v < 2 ^ 63) := by
  intro fuel
  induction fuel with
  | zero => intro acc i r o h _; exact PResult.noConfusion h
  | succ n ih =>
    intro acc i r o h hacc
    cases hpi : digit R i with
    | abort => simp [foldLoop, hpi] at h
    | fail =>
      simp only [foldLoop, hpi] at h
      injection h with _ h2
      subst h2
      exact hacc
    | ok i1 d =>
      simp only [foldLoop, hpi] at h
      split at h
      next => exact PResult.noConfusion h
      next =>
        refine ih (uintStep R acc d) i1 r o h ?_
        intro a' ha'
        exact uintStep_some ha' (fun a ha => (hacc a ha).1)

theorem uinteger_bound (R : Nat) :
    ∀ i r v, uinteger R i = .ok r v → 0 ≤ v ∧ v < 2 ^ 63 := by
  intro i r v h
  unfold uinteger map_res at h
  obtain ⟨o, ho, hov⟩ := map_opt_ok h
  cases hpi : digit R i with
  | abort => simp [fold_many1, hpi] at ho
  | fail => simp [fold_many1, hpi] at ho
  | ok i1 d =>
    simp only [fold_many1, hpi] at ho
    refine uintFold_bound R _ _ i1 r o ho ?_ v hov
    intro a' ha'
    refine uintStep_some ha' ?_
    intro a ha
    injection ha with ha1
    subst ha1
    exact le_refl 0

theorem ratioMk_verbatim (n d : Int) (v : Number) (h : ratioMk n d = some v) :
    v = Number.Rational n d.toNat := by
  unfold ratioMk at h
  split at h
  next =>
    injection h with h1
    exact h1.symm
  next => exact Option.noConfusion h

/-- C1: the spec claims the input consisting of the single character `.`
lexes as the dedicated `Token.Period` with empty remainder.  On the code
the dispatcher fails instead: the Period arm of `token` is
`value(Period, tag(","))` — it matches a comma, not a dot, and sits
unreachably behind the Comma arm — and no other production accepts a lone
dot. -/
theorem c1_lone_dot_fails : token (".".toList) = .fail := by decide

/-- C2: the spec claims `#\newline` lexes as the single token
`Character '\n'` and `#\x41` as `Character 'A'`, each with empty remainder.
On the code the raw-character branch of `character` is tried first and
`anychar` takes the single character after the `#\` marker, leaving the
name and hex-escape branches unreachable: `#\newline` yields
`Character 'n'` with remainder `ewline`, and `#\x41` yields
`Character 'x'` with remainder `41`. -/
theorem c2_character_raw_first :
    token ("#\\newline".toList) = .ok ("ewline".toList) (Token.Character 'n') ∧
    token ("#\\x41".toList) = .ok ("41".toList) (Token.Character 'x') :=
  ⟨by decide, by decide⟩

/-- C3: the spec claims the nested block comment `#|a #|b|# c|#` is
consumed entirely as atmosphere, producing zero tokens and empty remainder.
On the code `comment_text` is `take_until("|#")` (the source's
`TODO: support nesting`), so the outer comment closes at the inner `|#`:
lexing produces one `Identifier` token (for the `c`) and leaves `|#`
unconsumed. -/
theorem c3_nested_comment_leaks :
    lex ("#|a #|b|# c|#".toList) = .ok ("|#".toList) [Token.Identifier] := by decide

/-- C4: the spec claims every grammar rule returns either success or a
failure value on every input, never aborting the process.  The exactness
coercion inside `num` reaches the `todo!("idk")` panic (modelled as
`abort`) whenever `#e` is applied to a real with no exact integer
equivalent, as on the input `#e0.5`. -/
theorem c4_exact_coercion_aborts : number ("#e0.5".toList) = .abort := by decide

/-- C5: the number parser maps `#e1.0` to `Integer 1`, `#i5` to
`Real 5.0`, `1/3` to `Rational 1 3`, `#x10` to `Integer 16` and `#b101`
to `Integer 5`, each consuming the whole literal. -/
theorem c5_number_examples :
    number ("#e1.0".toList) = .ok [] (Number.Integer 1) ∧
    number ("#i5".toList) = .ok [] (Number.Real (F64.finite 5)) ∧
    number ("1/3".toList) = .ok [] (Number.Rational 1 3) ∧
    number ("#x10".toList) = .ok [] (Number.Integer 16) ∧
    number ("#b101".toList) = .ok [] (Number.Integer 5) :=
  ⟨by decide, by decide, by decide, by decide, by decide⟩

/-- C6: the spec claims a decimal literal whose exponent's power of ten
overflows `i64` (such as `1e30`) is a malformed numeric literal on which
the number parser fails.  On the code the overflowing `checked_pow` branch
of `suffix` fails and the empty-suffix alternative then succeeds consuming
nothing, so the parse succeeds partially: `Integer 1` with remainder
`e30`. -/
theorem c6_exponent_overflow_partial :
    number ("1e30".toList) = .ok ("e30".toList) (Number.Integer 1) := by decide

/-- C7: an unsigned-integer literal exceeding the signed 64-bit range is a
parse failure, never a wrapped value: the 20-nines literal fails both as a
`uinteger` and as a `number`, and every successful `uinteger` parse yields
a value within `[0, 2^63)` because the digits are folded
most-significant-first through `checked_mul` and `checked_add`. -/
theorem c7_uinteger_overflow_fails :
    uinteger 10 ("99999999999999999999".toList) = .fail ∧
    number ("99999999999999999999".toList) = .fail ∧
    (∀ i r v, uinteger 10 i = .ok r v → 0 ≤ v ∧ v < 2 ^ 63) :=
  ⟨by decide, by decide, fun i r v h => uinteger_bound 10 i r v h⟩

/-- Witness for C7, applying it at the concrete literal `7`. -/
theorem c7_uinteger_overflow_fails_witness :
    0 ≤ (7 : Int) ∧ (7 : Int) < 2 ^ 63 :=
  c7_uinteger_overflow_fails.2.2 ("7".toList) [] 7 (by decide)

/-- C8: ordered alternation disambiguates signs and dots exactly as
claimed: `-` alone lexes as an `Identifier` (number and boolean
productions are tried first and fail), `-5` lexes as
`Number (Integer (-5))`, and `...` lexes as an `Identifier` through the
peculiar-identifier path. -/
theorem c8_sign_disambiguation :
    token ("-".toList) = .ok [] Token.Identifier ∧
    token ("-5".toList) = .ok [] (Token.Number (Number.Integer (-5))) ∧
    token ("...".toList) = .ok [] Token.Identifier :=
  ⟨by decide, by decide, by decide⟩

/-- C9: accepted rational literals are emitted verbatim: `2/4` yields
`Rational 2 4` (not reduced to lowest terms), `5/1` yields `Rational 5 1`
(not collapsed to `Integer`), and the rational-branch constructor
`ratioMk` always returns exactly the parsed numerator/denominator pair. -/
theorem c9_rationals_verbatim :
    number ("2/4".toList) = .ok [] (Number.Rational 2 4) ∧
    number ("5/1".toList) = .ok [] (Number.Rational 5 1) ∧
    (∀ n d v, ratioMk n d = some v → v = Number.Rational n d.toNat) :=
  ⟨by decide, by decide, fun n d v h => ratioMk_verbatim n d v h⟩

/-- Witness for C9, applying it at the concrete pair 5/1. -/
theorem c9_rationals_verbatim_witness :
    Number.Rational 5 1 = Number.Rational 5 (Int.toNat 1) :=
  c9_rationals_verbatim.2.2 5 1 (Number.Rational 5 1) (by decide)

/-- C10 counterexample: the claim says the full pass `lex` returns success
on every input; on `#e0.5` it instead aborts through the unimplemented
exactness-coercion panic inside the token it attempts. -/
theorem c10_lex_abort_counterexample : lex ("#e0.5".toList) = .abort := by decide

/-- C10 (amended): `lex` never returns an error value and never diverges:
on every input it either succeeds with a (possibly empty) token sequence
and the unconsumed remainder, or it aborts through the unimplemented
exactness-coercion panic.  The atmosphere skipper cannot make the driver
fail, and every successful token consumes at least one character, so the
`many0` driver's loop guard never fires and its fuel never runs out. -/
theorem c10_lex_never_fails (i : List Char) : (lex i).isFail = false :=
  many0Loop_ne_fail lex_step_consumes (i.length + 1) i (Nat.lt_succ_self _)

end Mibph
